import Mathlib

/-!
# Shallow embedding of the ink! ballot contract (src/examples/ballot/lib.rs)

The contract stores a chairperson, a map of voters and a vector of
proposals.  Each `#[ink(message)]` becomes a pure function taking the
caller's `AccountId` explicitly (in the contract it is supplied by
`Self::env().caller()`).

* `u32` fields (`weight`, `vote_count`) are modelled as `Nat` with the
  wrap-around of release-mode `u32` addition made explicit by `wrap32`.
* `i32` (the `vote` index parameter) is modelled as `Int`; the Rust cast
  `as usize` on the wasm32 target (32-bit `usize`) is `i32ToUsize`,
  i.e. reinterpretation mod 2^32.
* `ink_storage::collections::HashMap` is modelled as an association list
  with unique keys; `lookupVoter`/`updateVoter` give its observable
  behaviour.
* Every `assert_eq!`/`assert_ne!` failure and every runtime panic
  (`Option::unwrap` on `None`, `Vec` index out of bounds) aborts the
  message; the ink! runtime then reverts all storage writes of the call.
  A failing path therefore returns `Except.error` and `applyExcept`
  models the transactional, abort-and-revert call semantics: the state
  observable after a failed call is the state before the call.

The `assert` messages map to the error taxonomy as follows:
"only chair person can give right to vote" = `unauthorized`,
"provided voterId does not exist" / "Caller is not a valid voter" /
"Sender is not a voter!" = `unknownVoter`,
"the voter has already voted" / "You have already voted" = `alreadyVoted`,
"Self-delegation is disallowed." = `selfDelegation`,
"The delegated address is not valid" = `invalidDelegate`,
"You have no right to vote" = `noRight`,
"Proposal index out of bound" = `indexOutOfBounds`,
"No Proposal!" = `noWinner`.
`unwrapNone` and `vecIndexPanic` are unnamed runtime panics, not part of
the taxonomy.
-/

/-- Opaque principal identity (ink! `AccountId`). -/
abbrev AccountId := Nat

/-- `struct Voter` of the contract. -/
structure Voter where
  weight : Nat
  voted : Bool
  delegate : Option AccountId
  vote : Option Int
deriving Repr, DecidableEq

/-- `struct Proposal` of the contract. -/
structure Proposal where
  name : String
  vote_count : Nat
deriving Repr, DecidableEq

/-- `struct Ballot` (the `#[ink(storage)]` aggregate root). -/
structure Ballot where
  chair_person : AccountId
  voters : List (AccountId × Voter)
  proposals : List Proposal
deriving Repr, DecidableEq

/-- Failure signals: the eight named signals of the error taxonomy plus
the two unnamed runtime panics reachable in `delegate` and
`get_winning_proposal_name`. -/
inductive BallotError where
  | unauthorized
  | unknownVoter
  | alreadyVoted
  | selfDelegation
  | invalidDelegate
  | noRight
  | indexOutOfBounds
  | noWinner
  | unwrapNone
  | vecIndexPanic
deriving Repr, DecidableEq

deriving instance DecidableEq for Except

/-- The eight named failure signals of the error taxonomy. -/
def namedSignals : List BallotError :=
  [.unauthorized, .unknownVoter, .alreadyVoted, .selfDelegation,
   .invalidDelegate, .noRight, .indexOutOfBounds, .noWinner]

/-- `u32` wrap-around addition base: reduce mod 2^32. -/
def wrap32 (n : Nat) : Nat := n % 4294967296

/-- The Rust cast `i as usize` for `i : i32` on the 32-bit wasm target:
two's-complement reinterpretation, i.e. the value mod 2^32. -/
def i32ToUsize (i : Int) : Nat := (i % 4294967296).toNat

/-- `HashMap::get` on the voter map. -/
def lookupVoter : List (AccountId × Voter) → AccountId → Option Voter
  | [], _ => none
  | (k, v) :: rest, id => if k = id then some v else lookupVoter rest id

/-- `HashMap::get_mut` followed by a field update: rewrite the entry of
`id` in place, leave everything else untouched. -/
def updateVoter : List (AccountId × Voter) → AccountId → (Voter → Voter) →
    List (AccountId × Voter)
  | [], _, _ => []
  | (k, v) :: rest, id, f =>
    if k = id then (k, f v) :: rest else (k, v) :: updateVoter rest id f

/-- In-place update of `proposals[i]`. -/
def updateProposal : List Proposal → Nat → (Proposal → Proposal) → List Proposal
  | [], _, _ => []
  | p :: rest, 0, f => f p :: rest
  | p :: rest, n + 1, f => p :: updateProposal rest n f

/-- The voter record inserted by `add_voter`. -/
def freshVoter : Voter := { weight := 0, voted := false, delegate := none, vote := none }

/-- Constructor `Ballot::new`: the creating caller becomes chairperson
and is registered with weight 1; each provided name becomes a proposal
with `vote_count = 0`. -/
def Ballot.new (chair_person : AccountId) (proposal_names : Option (List String)) : Ballot :=
  { chair_person := chair_person
    voters := [(chair_person,
      { weight := 1, voted := false, delegate := none, vote := none })]
    proposals :=
      match proposal_names with
      | none => []
      | some names => names.map fun name => { name := name, vote_count := 0 } }

/-- Message `get_chairperson`. -/
def Ballot.get_chairperson (st : Ballot) : AccountId := st.chair_person

/-- Message `give_voting_right` (caller passed explicitly). -/
def Ballot.give_voting_right (st : Ballot) (caller voter_id : AccountId) :
    Except BallotError Ballot :=
  if caller = st.chair_person then
    match lookupVoter st.voters voter_id with
    | none => .error .unknownVoter
    | some voter =>
      if voter.voted then .error .alreadyVoted
      else .ok { st with
        voters := updateVoter st.voters voter_id fun v => { v with weight := 1 } }
  else .error .unauthorized

/-- Message `add_voter`: returns the `bool` result together with the new
state (never fails). -/
def Ballot.add_voter (st : Ballot) (voter_id : AccountId) : Bool × Ballot :=
  match lookupVoter st.voters voter_id with
  | some _ => (false, st)
  | none =>
    (true, { st with voters := (voter_id, freshVoter) :: st.voters })

/-- Message `delegate` (caller passed explicitly as `sender_id`).
Mirrors the source order: self-check, sender lookup, sender
mutation and weight capture, then target lookup and settlement.  The
`delegate.vote.unwrap()` on a target that delegated instead of voting is
the `unwrapNone` panic; an out-of-range stored index would be the
`vecIndexPanic` panic of `self.proposals[voted_to]`. -/
def Ballot.delegate (st : Ballot) (sender_id target_id : AccountId) : Except BallotError Ballot :=
  if target_id = sender_id then .error .selfDelegation
  else
    match lookupVoter st.voters sender_id with
    | none => .error .unknownVoter
    | some sender =>
      if sender.voted then .error .alreadyVoted
      else
        let sender_weight := sender.weight
        let voters1 := updateVoter st.voters sender_id fun v =>
          { v with voted := true, delegate := some target_id }
        match lookupVoter voters1 target_id with
        | none => .error .invalidDelegate
        | some d =>
          if d.voted then
            match d.vote with
            | none => .error .unwrapNone
            | some stored =>
              let voted_to := i32ToUsize stored
              if voted_to < st.proposals.length then
                .ok { st with
                  voters := voters1
                  proposals := updateProposal st.proposals voted_to fun p =>
                    { p with vote_count := wrap32 (p.vote_count + sender_weight) } }
              else .error .vecIndexPanic
          else
            .ok { st with
              voters := updateVoter voters1 target_id fun v =>
                { v with weight := wrap32 (v.weight + sender_weight) } }

/-- Message `vote` (caller passed explicitly).  Note the source guard is
`assert_eq!(sender.weight, 1, "You have no right to vote")`: the call
fails with `noRight` whenever the weight is not exactly 1. -/
def Ballot.vote (st : Ballot) (sender_id : AccountId) (proposal_index : Int) :
    Except BallotError Ballot :=
  match lookupVoter st.voters sender_id with
  | none => .error .unknownVoter
  | some sender =>
    if sender.voted then .error .alreadyVoted
    else if sender.weight = 1 then
      let idx := i32ToUsize proposal_index
      match st.proposals.get? idx with
      | none => .error .indexOutOfBounds
      | some _ =>
        .ok { st with
          voters := updateVoter st.voters sender_id fun v =>
            { v with voted := true, vote := some proposal_index }
          proposals := updateProposal st.proposals idx fun p =>
            { p with vote_count := wrap32 (p.vote_count + sender.weight) } }
    else .error .noRight

/-- The scan loop of `winning_proposal`: running maximum
`winning_vote_vount`, current position `index`, recorded winner
`winning_index`, strict `>` comparison. -/
def winningGo : List Proposal → Nat → Nat → Option Nat → Option Nat
  | [], _, _, winning_index => winning_index
  | p :: rest, winning_vote_vount, index, winning_index =>
    if winning_vote_vount < p.vote_count then
      winningGo rest p.vote_count (index + 1) (some index)
    else
      winningGo rest winning_vote_vount (index + 1) winning_index

/-- `winning_proposal`: scan with running maximum initialized to 0 and
no recorded winner. -/
def Ballot.winning_proposal (st : Ballot) : Option Nat :=
  winningGo st.proposals 0 0 none

/-- `get_winning_proposal_name`: fails `noWinner` ("No Proposal!") when
the scan records no winner; the inner `get(index).unwrap()` is modelled
faithfully as a potential panic. -/
def Ballot.get_winning_proposal_name (st : Ballot) : Except BallotError String :=
  match st.winning_proposal with
  | none => .error .noWinner
  | some index =>
    match st.proposals.get? index with
    | none => .error .unwrapNone
    | some proposal => .ok proposal.name

/-- `get_proposal_length`. -/
def Ballot.get_proposal_length (st : Ballot) : Nat := st.proposals.length

/-- `add_proposal`. -/
def Ballot.add_proposal (st : Ballot) (proposal_name : String) : Ballot :=
  { st with proposals := st.proposals ++ [{ name := proposal_name, vote_count := 0 }] }

/-- `get_voter`. -/
def Ballot.get_voter (st : Ballot) (voter_id : AccountId) : Option Voter :=
  lookupVoter st.voters voter_id

/-- The externally invocable state-changing operations (with the caller
identity recorded in the operation). -/
inductive Op where
  | addVoter (voter_id : AccountId)
  | giveRight (caller voter_id : AccountId)
  | delegate (caller target_id : AccountId)
  | vote (caller : AccountId) (proposal_index : Int)
deriving Repr, DecidableEq

/-- Transactional call semantics of the ink! runtime: a trapped
(panicking) call reverts every storage write, so the observable
post-state of a failed call is the pre-state. -/
def applyExcept (r : Except BallotError Ballot) (st : Ballot) : Ballot :=
  match r with
  | .ok st' => st'
  | .error _ => st

/-- Observable effect of one external call on the stored state. -/
def Op.apply (op : Op) (st : Ballot) : Ballot :=
  match op with
  | .addVoter id => (st.add_voter id).2
  | .giveRight caller id => applyExcept (st.give_voting_right caller id) st
  | .delegate caller target_id => applyExcept (st.delegate caller target_id) st
  | .vote caller i => applyExcept (st.vote caller i) st

/-- States reachable from construction by any sequence of register
(`add_voter`), grant-right, delegate and vote calls. -/
def Ballot.Reachable (chair : AccountId) (names : Option (List String)) (st : Ballot) : Prop :=
  Relation.ReflTransGen (fun s s' => ∃ op : Op, s' = op.apply s) (Ballot.new chair names) st

/-- The maximal `vote_count` occurring in a proposal list (0 for the
empty list). -/
def maxCount (ps : List Proposal) : Nat :=
  ps.foldr (fun p m => max p.vote_count m) 0

/-- A voter record is consistent when `voted = false` means both
optional fields are absent, and `voted = true` means exactly one of
`vote` / `delegate` is set. -/
def Voter.consistentB (v : Voter) : Bool :=
  if v.voted then
    (v.vote.isSome && !v.delegate.isSome) || (!v.vote.isSome && v.delegate.isSome)
  else !v.vote.isSome && !v.delegate.isSome

/-- All stored voter records are consistent. -/
def Ballot.InvB (st : Ballot) : Bool :=
  st.voters.all fun kv => kv.2.consistentB

/-- Scenario for the `vote` weight guard: ballot with one proposal,
voter 1 registered and granted the right, voter 1 delegates to the
chairperson 0 — whose weight becomes 2 while still unvoted. -/
def stWeightTwo : Ballot :=
  (Op.delegate 1 0).apply
    ((Op.giveRight 0 1).apply
      ((Op.addVoter 1).apply (Ballot.new 0 (some ["A"]))))

/-- Scenario for the delegation panic: voter 1 registered and granted
the right, voter 2 registered, chairperson 0 delegates to 2.  Now 0 has
`voted = true` with `vote = none`. -/
def stChairDelegated : Ballot :=
  (Op.delegate 0 2).apply
    ((Op.addVoter 2).apply
      ((Op.giveRight 0 1).apply
        ((Op.addVoter 1).apply (Ballot.new 0 none))))

/-- Ballot with one proposal "A"; voter 1 registered (weight 0); the
chairperson 0 has voted for proposal 0. -/
def stVotedChair : Ballot :=
  (Op.vote 0 0).apply (((Ballot.new 0 (some ["A"])).add_voter 1).2)

/-- Ballot with no proposals and voters 0 (chairperson) and 1. -/
def stTwoVoters : Ballot := ((Ballot.new 0 none).add_voter 1).2

/-- Ballot with one proposal "A" whose chairperson has voted for it. -/
def stChairVoted : Ballot := (Op.vote 0 0).apply (Ballot.new 0 (some ["A"]))

/-! ## Basic lemmas about the association-list voter map -/

theorem lookupVoter_updateVoter (vs : List (AccountId × Voter)) (id : AccountId)
    (f : Voter → Voter) (j : AccountId) :
    lookupVoter (updateVoter vs id f) j =
      if j = id then Option.map f (lookupVoter vs id) else lookupVoter vs j := by
  induction vs with
  | nil => simp [lookupVoter, updateVoter]
  | cons kv rest ih =>
    obtain ⟨k, v⟩ := kv
    by_cases hk : k = id
    · subst hk
      by_cases hj : j = k
      · subst hj
        simp [lookupVoter, updateVoter]
      · simp [lookupVoter, updateVoter, hj, Ne.symm hj]
    · by_cases hj : k = j
      · subst hj
        have hj2 : ¬ k = id := hk
        simp [lookupVoter, updateVoter, hk, hj2]
      · simp [lookupVoter, updateVoter, hk, hj, ih]

theorem isSome_lookupVoter_updateVoter (vs : List (AccountId × Voter)) (id : AccountId)
    (f : Voter → Voter) (j : AccountId) :
    (lookupVoter (updateVoter vs id f) j).isSome = (lookupVoter vs j).isSome := by
  rw [lookupVoter_updateVoter]
  by_cases hj : j = id
  · subst hj
    cases lookupVoter vs j <;> simp
  · simp [hj]

theorem lookupVoter_all :
    ∀ (vs : List (AccountId × Voter)) (P : AccountId × Voter → Bool),
    vs.all P = true → ∀ id v, lookupVoter vs id = some v → P (id, v) = true
  | [], _, _, _, _, hl => by simp [lookupVoter] at hl
  | (k, w) :: rest, P, h, id, v, hl => by
    rw [lookupVoter] at hl
    rw [List.all_cons, Bool.and_eq_true] at h
    by_cases hk : k = id
    · rw [if_pos hk] at hl
      cases hl
      subst hk
      exact h.1
    · rw [if_neg hk] at hl
      exact lookupVoter_all rest P h.2 id v hl

theorem all_updateVoter :
    ∀ (vs : List (AccountId × Voter)) (id : AccountId) (f : Voter → Voter)
      (P : AccountId × Voter → Bool),
    vs.all P = true → (∀ v, lookupVoter vs id = some v → P (id, f v) = true) →
    (updateVoter vs id f).all P = true
  | [], _, _, _, h, _ => h
  | (k, w) :: rest, id, f, P, h, h2 => by
    rw [List.all_cons, Bool.and_eq_true] at h
    rw [updateVoter]
    by_cases hk : k = id
    · rw [if_pos hk, List.all_cons, Bool.and_eq_true]
      refine ⟨?_, h.2⟩
      subst hk
      exact h2 w (by rw [lookupVoter, if_pos rfl])
    · rw [if_neg hk, List.all_cons, Bool.and_eq_true]
      refine ⟨h.1, ?_⟩
      refine all_updateVoter rest id f P h.2 ?_
      intro v hv
      exact h2 v (by rw [lookupVoter, if_neg hk]; exact hv)

theorem get?_updateProposal (ps : List Proposal) (i : Nat) (f : Proposal → Proposal) :
    ∀ j, (updateProposal ps i f).get? j =
      if j = i then Option.map f (ps.get? j) else ps.get? j := by
  induction ps generalizing i with
  | nil => intro j; simp [updateProposal]
  | cons p rest ih =>
    intro j
    cases i with
    | zero =>
      cases j with
      | zero => simp [updateProposal]
      | succ j => simp [updateProposal]
    | succ i =>
      cases j with
      | zero => simp [updateProposal]
      | succ j =>
        simp only [updateProposal, List.get?_cons_succ, ih i j, Nat.succ.injEq]

theorem length_updateProposal (ps : List Proposal) (i : Nat) (f : Proposal → Proposal) :
    (updateProposal ps i f).length = ps.length := by
  induction ps generalizing i with
  | nil => rfl
  | cons p rest ih =>
    cases i with
    | zero => rfl
    | succ i => simpa [updateProposal] using ih i

/-! ## Inversion lemmas: what a successful call did -/

theorem give_voting_right_ok {st : Ballot} {c t : AccountId} {st' : Ballot}
    (h : st.give_voting_right c t = .ok st') :
    c = st.chair_person ∧ ∃ voter, lookupVoter st.voters t = some voter ∧
      voter.voted = false ∧
      st' = { st with voters := updateVoter st.voters t fun v => { v with weight := 1 } } := by
  unfold Ballot.give_voting_right at h
  split at h
  · rename_i hc
    cases hl : lookupVoter st.voters t with
    | none => simp only [hl] at h; simp at h
    | some voter =>
      simp only [hl] at h
      split at h
      · simp at h
      · rename_i hv
        rw [Except.ok.injEq] at h
        exact ⟨hc, voter, rfl, by simpa using hv, h.symm⟩
  · simp at h

theorem vote_ok {st : Ballot} {s : AccountId} {i : Int} {st' : Ballot}
    (h : st.vote s i = .ok st') :
    ∃ sender, lookupVoter st.voters s = some sender ∧ sender.voted = false ∧
      sender.weight = 1 ∧ (∃ p, st.proposals.get? (i32ToUsize i) = some p) ∧
      st' = { st with
        voters := updateVoter st.voters s fun v =>
          { v with voted := true, vote := some i }
        proposals := updateProposal st.proposals (i32ToUsize i) fun p =>
          { p with vote_count := wrap32 (p.vote_count + sender.weight) } } := by
  unfold Ballot.vote at h
  cases hl : lookupVoter st.voters s with
  | none => simp only [hl] at h; simp at h
  | some sender =>
    simp only [hl] at h
    split at h
    · simp at h
    · rename_i hv
      split at h
      · rename_i hw
        cases hp : st.proposals.get? (i32ToUsize i) with
        | none => simp only [hp] at h; simp at h
        | some p =>
          simp only [hp] at h
          rw [Except.ok.injEq] at h
          exact ⟨sender, rfl, by simpa using hv, hw, ⟨p, rfl⟩, h.symm⟩
      · simp at h

theorem delegate_ok {st : Ballot} {s t : AccountId} {st' : Ballot}
    (h : st.delegate s t = .ok st') :
    t ≠ s ∧ ∃ sender, lookupVoter st.voters s = some sender ∧ sender.voted = false ∧
      ∃ d, lookupVoter (updateVoter st.voters s fun v =>
              { v with voted := true, delegate := some t }) t = some d ∧
        ((∃ stored, d.voted = true ∧ d.vote = some stored ∧
            i32ToUsize stored < st.proposals.length ∧
            st' = { st with
              voters := updateVoter st.voters s fun v =>
                { v with voted := true, delegate := some t }
              proposals := updateProposal st.proposals (i32ToUsize stored) fun p =>
                { p with vote_count := wrap32 (p.vote_count + sender.weight) } }) ∨
         (d.voted = false ∧
            st' = { st with
              voters := updateVoter (updateVoter st.voters s fun v =>
                  { v with voted := true, delegate := some t }) t fun v =>
                { v with weight := wrap32 (v.weight + sender.weight) } })) := by
  unfold Ballot.delegate at h
  split at h
  · simp at h
  · rename_i hne
    cases hl : lookupVoter st.voters s with
    | none => simp only [hl] at h; simp at h
    | some sender =>
      simp only [hl] at h
      split at h
      · simp at h
      · rename_i hv
        cases hd : lookupVoter (updateVoter st.voters s fun v =>
            { v with voted := true, delegate := some t }) t with
        | none => simp only [hd] at h; simp at h
        | some d =>
          simp only [hd] at h
          split at h
          · rename_i hdv
            cases hds : d.vote with
            | none => simp only [hds] at h; simp at h
            | some stored =>
              simp only [hds] at h
              split at h
              · rename_i hlt
                rw [Except.ok.injEq] at h
                exact ⟨hne, sender, rfl, by simpa using hv, d, rfl,
                  .inl ⟨stored, hdv, hds, hlt, h.symm⟩⟩
              · simp at h
          · rename_i hdv
            rw [Except.ok.injEq] at h
            exact ⟨hne, sender, rfl, by simpa using hv, d, rfl,
              .inr ⟨by simpa using hdv, h.symm⟩⟩

/-! ## The per-voter consistency invariant -/

theorem consistentB_weight_update (v : Voter) (w : Nat) :
    Voter.consistentB { v with weight := w } = v.consistentB := by
  cases v; rfl

theorem consistentB_unvoted_fields {v : Voter} (hc : v.consistentB = true)
    (hv : v.voted = false) : v.vote = none ∧ v.delegate = none := by
  rw [Voter.consistentB, hv] at hc
  cases hvo : v.vote <;> cases hd : v.delegate <;> simp_all

theorem invB_new (chair : AccountId) (names : Option (List String)) :
    (Ballot.new chair names).InvB = true := by
  simp [Ballot.InvB, Ballot.new, Voter.consistentB]

theorem invB_apply (op : Op) (st : Ballot) (h : st.InvB = true) :
    (op.apply st).InvB = true := by
  cases op with
  | addVoter id =>
    simp only [Op.apply, Ballot.add_voter]
    cases hl : lookupVoter st.voters id with
    | some v => exact h
    | none =>
      rw [Ballot.InvB] at h ⊢
      simp only [List.all_cons, Bool.and_eq_true]
      exact ⟨by rfl, h⟩
  | giveRight c t =>
    simp only [Op.apply]
    cases hres : st.give_voting_right c t with
    | error e => simpa [applyExcept] using h
    | ok st' =>
      obtain ⟨-, voter, hl, -, rfl⟩ := give_voting_right_ok hres
      simp only [applyExcept, Ballot.InvB]
      refine all_updateVoter _ _ _ _ h ?_
      intro v hv
      have hall := lookupVoter_all _ _ h t v hv
      simpa [consistentB_weight_update] using hall
  | vote c i =>
    simp only [Op.apply]
    cases hres : st.vote c i with
    | error e => simpa [applyExcept] using h
    | ok st' =>
      obtain ⟨sender, hl, hnv, hw, ⟨p, hp⟩, rfl⟩ := vote_ok hres
      simp only [applyExcept, Ballot.InvB]
      refine all_updateVoter _ _ _ _ h ?_
      intro v hv
      rw [hl, Option.some.injEq] at hv
      subst hv
      have hcons : sender.consistentB = true := lookupVoter_all _ _ h c sender hl
      obtain ⟨-, hdn⟩ := consistentB_unvoted_fields hcons hnv
      simp [Voter.consistentB, hdn]
  | delegate c t =>
    simp only [Op.apply]
    cases hres : st.delegate c t with
    | error e => simpa [applyExcept] using h
    | ok st' =>
      obtain ⟨hne, sender, hl, hnv, d, hd, hbr⟩ := delegate_ok hres
      have hcons : sender.consistentB = true := lookupVoter_all _ _ h c sender hl
      obtain ⟨hvn, hdn⟩ := consistentB_unvoted_fields hcons hnv
      have hall1 : (updateVoter st.voters c fun v =>
          { v with voted := true, delegate := some t }).all
            (fun kv => kv.2.consistentB) = true := by
        refine all_updateVoter _ _ _ _ h ?_
        intro v hv
        rw [hl, Option.some.injEq] at hv
        subst hv
        simp [Voter.consistentB, hvn]
      rcases hbr with ⟨stored, hdv, hds, hlt, rfl⟩ | ⟨hdv, rfl⟩
      · simpa [applyExcept, Ballot.InvB] using hall1
      · simp only [applyExcept, Ballot.InvB]
        refine all_updateVoter _ _ _ _ hall1 ?_
        intro v hv
        have hall := lookupVoter_all _ _ hall1 t v hv
        simpa [consistentB_weight_update] using hall

theorem invB_reachable (chair : AccountId) (names : Option (List String)) (st : Ballot)
    (h : Ballot.Reachable chair names st) : st.InvB = true := by
  induction h with
  | refl => exact invB_new chair names
  | tail _ hstep ih =>
    obtain ⟨op, rfl⟩ := hstep
    exact invB_apply op _ ih

/-! ## Voter presence is never lost -/

theorem lookupVoter_isSome_apply (op : Op) (st : Ballot) (id : AccountId)
    (h : (lookupVoter st.voters id).isSome = true) :
    (lookupVoter (op.apply st).voters id).isSome = true := by
  cases op with
  | addVoter j =>
    simp only [Op.apply, Ballot.add_voter]
    cases hl : lookupVoter st.voters j with
    | some v => exact h
    | none =>
      by_cases hj : j = id
      · simp [lookupVoter, hj]
      · simp [lookupVoter, hj, h]
  | giveRight c t =>
    simp only [Op.apply]
    cases hres : st.give_voting_right c t with
    | error e => simpa [applyExcept] using h
    | ok st' =>
      obtain ⟨-, voter, -, -, rfl⟩ := give_voting_right_ok hres
      simpa [applyExcept, isSome_lookupVoter_updateVoter] using h
  | vote c i =>
    simp only [Op.apply]
    cases hres : st.vote c i with
    | error e => simpa [applyExcept] using h
    | ok st' =>
      obtain ⟨sender, -, -, -, -, rfl⟩ := vote_ok hres
      simpa [applyExcept, isSome_lookupVoter_updateVoter] using h
  | delegate c t =>
    simp only [Op.apply]
    cases hres : st.delegate c t with
    | error e => simpa [applyExcept] using h
    | ok st' =>
      obtain ⟨-, sender, -, -, d, -, hbr⟩ := delegate_ok hres
      rcases hbr with ⟨stored, -, -, -, rfl⟩ | ⟨-, rfl⟩
      · simpa [applyExcept, isSome_lookupVoter_updateVoter] using h
      · simpa [applyExcept, isSome_lookupVoter_updateVoter] using h

/-! ## The winning-proposal scan -/

theorem maxCount_cons (q : Proposal) (rest : List Proposal) :
    maxCount (q :: rest) = max q.vote_count (maxCount rest) := rfl

theorem count_le_maxCount (ps : List Proposal) : ∀ p ∈ ps, p.vote_count ≤ maxCount ps := by
  induction ps with
  | nil => intro p hp; simp at hp
  | cons q rest ih =>
    intro p hp
    rw [List.mem_cons] at hp
    rcases hp with rfl | hp
    · rw [maxCount_cons]; exact le_max_left _ _
    · rw [maxCount_cons]; exact le_trans (ih p hp) (le_max_right _ _)

theorem maxCount_le (ps : List Proposal) (c : Nat) (h : ∀ p ∈ ps, p.vote_count ≤ c) :
    maxCount ps ≤ c := by
  induction ps with
  | nil => simp [maxCount]
  | cons q rest ih =>
    rw [maxCount_cons]
    exact max_le (h q (List.mem_cons_self _ _))
      (ih fun p hp => h p (List.mem_cons_of_mem _ hp))

theorem winningGo_of_all_le (ps : List Proposal) :
    ∀ best idx acc, (∀ p ∈ ps, p.vote_count ≤ best) →
    winningGo ps best idx acc = acc := by
  induction ps with
  | nil => intro best idx acc _; rfl
  | cons q rest ih =>
    intro best idx acc h
    rw [winningGo, if_neg (Nat.not_lt.mpr (h q (List.mem_cons_self _ _)))]
    exact ih best (idx + 1) acc fun p hp => h p (List.mem_cons_of_mem _ hp)

theorem winningGo_found (ps : List Proposal) :
    ∀ best idx acc, best < maxCount ps →
    ∃ j q, ps.get? j = some q ∧ q.vote_count = maxCount ps ∧
      winningGo ps best idx acc = some (idx + j) ∧
      ∀ l r, l < j → ps.get? l = some r → r.vote_count < maxCount ps := by
  induction ps with
  | nil =>
    intro best idx acc h
    simp [maxCount] at h
  | cons q rest ih =>
    intro best idx acc h
    rw [maxCount_cons] at h
    rw [winningGo]
    by_cases h1 : best < q.vote_count
    · rw [if_pos h1]
      by_cases h2 : maxCount rest ≤ q.vote_count
      · have hall : ∀ p ∈ rest, p.vote_count ≤ q.vote_count :=
          fun p hp => le_trans (count_le_maxCount rest p hp) h2
        refine ⟨0, q, rfl, ?_, ?_, ?_⟩
        · rw [maxCount_cons]
          exact (Nat.max_eq_left h2).symm
        · rw [winningGo_of_all_le rest _ _ _ hall, Nat.add_zero]
        · intro l r hl _
          exact absurd hl (Nat.not_lt_zero l)
      · have h2' : q.vote_count < maxCount rest := Nat.not_le.mp h2
        obtain ⟨j, p, hj, hpc, hgo, hlt⟩ := ih q.vote_count (idx + 1) (some idx) h2'
        have hmax : maxCount (q :: rest) = maxCount rest := by
          rw [maxCount_cons]
          exact Nat.max_eq_right (Nat.le_of_lt h2')
        refine ⟨j + 1, p, by simpa using hj, by rw [hmax]; exact hpc, ?_, ?_⟩
        · rw [hgo]
          congr 1
          omega
        · intro l r hl hr
          cases l with
          | zero =>
            rw [List.get?_cons_zero, Option.some.injEq] at hr
            subst hr
            rw [hmax]
            exact h2'
          | succ l =>
            rw [List.get?_cons_succ] at hr
            rw [hmax]
            exact hlt l r (Nat.lt_of_succ_lt_succ hl) hr
    · rw [if_neg h1]
      have hq : q.vote_count ≤ best := Nat.not_lt.mp h1
      have hbest : best < maxCount rest := by
        rcases lt_max_iff.mp h with h' | h'
        · omega
        · exact h'
      obtain ⟨j, p, hj, hpc, hgo, hlt⟩ := ih best (idx + 1) acc hbest
      have hmax : maxCount (q :: rest) = maxCount rest := by
        rw [maxCount_cons]
        exact Nat.max_eq_right (le_trans hq (Nat.le_of_lt hbest))
      refine ⟨j + 1, p, by simpa using hj, by rw [hmax]; exact hpc, ?_, ?_⟩
      · rw [hgo]
        congr 1
        omega
      · intro l r hl hr
        cases l with
        | zero =>
          rw [List.get?_cons_zero, Option.some.injEq] at hr
          subst hr
          rw [hmax]
          exact Nat.lt_of_le_of_lt hq hbest
        | succ l =>
          rw [List.get?_cons_succ] at hr
          rw [hmax]
          exact hlt l r (Nat.lt_of_succ_lt_succ hl) hr

/-! ## Claim theorems -/

/-- C7: for every voter id `v` and every ballot state, `delegate(v, v)`
fails with `SelfDelegation`, and by the abort-and-revert call semantics
the observable state is unchanged. -/
theorem delegate_self_rejected_C7 (st : Ballot) (v : AccountId) :
    st.delegate v v = .error .selfDelegation ∧ (Op.delegate v v).apply st = st := by
  constructor
  · rw [Ballot.delegate, if_pos rfl]
  · simp [Op.apply, Ballot.delegate, applyExcept]

/-- C5: if every proposal has `vote_count = 0` — including the empty
proposal list — `winning_proposal` returns no index (zero never exceeds
the initial running maximum 0) and `get_winning_proposal_name` fails
with `NoWinner`. -/
theorem all_zero_no_winner_C5 (st : Ballot)
    (h : ∀ p ∈ st.proposals, p.vote_count = 0) :
    st.winning_proposal = none ∧
    st.get_winning_proposal_name = .error .noWinner := by
  have hw : st.winning_proposal = none :=
    winningGo_of_all_le st.proposals 0 0 none fun p hp => le_of_eq (h p hp)
  exact ⟨hw, by simp [Ballot.get_winning_proposal_name, hw]⟩

/-- Witness for C5, at the empty proposal list and at a non-empty
all-zero list. -/
theorem all_zero_no_winner_C5_witness :
    ((Ballot.new 0 none).winning_proposal = none ∧
      (Ballot.new 0 none).get_winning_proposal_name = .error .noWinner) ∧
    ((Ballot.new 0 (some ["A", "B"])).winning_proposal = none ∧
      (Ballot.new 0 (some ["A", "B"])).get_winning_proposal_name = .error .noWinner) :=
  ⟨all_zero_no_winner_C5 _ (by decide), all_zero_no_winner_C5 _ (by decide)⟩

/-- C4 counterexample: in `Ballot.new 0 (some ["A", "B"])` the two
proposals at indices 0 < 1 hold the equal maximal `vote_count` 0, yet
`winning_proposal` returns no index at all rather than the lower index
0: with an all-zero tally the strict comparison never records a winner. -/
theorem winning_tie_all_zero_C4_counterexample :
    (Ballot.new 0 (some ["A", "B"])).proposals.get? 0 =
      some { name := "A", vote_count := 0 } ∧
    (Ballot.new 0 (some ["A", "B"])).proposals.get? 1 =
      some { name := "B", vote_count := 0 } ∧
    (Ballot.new 0 (some ["A", "B"])).proposals.length = 2 ∧
    (Ballot.new 0 (some ["A", "B"])).winning_proposal ≠ some 0 ∧
    (Ballot.new 0 (some ["A", "B"])).winning_proposal = none := by decide

/-- C4 (amended: the shared maximal `vote_count` must be positive —
otherwise the scan returns no winner at all): for any two proposals at
indices `i < j` holding the equal maximal positive `vote_count`, the
recorded winner exists, holds the maximal count, is the first index
attaining it, and in particular is at most `i` — a later proposal with
an equal count never replaces it. -/
theorem winning_tiebreak_lowest_C4 (st : Ballot) (i j : Nat) (pi pj : Proposal)
    (hij : i < j)
    (hi : st.proposals.get? i = some pi) (hj : st.proposals.get? j = some pj)
    (heq : pj.vote_count = pi.vote_count)
    (hmax : ∀ p ∈ st.proposals, p.vote_count ≤ pi.vote_count)
    (hpos : 0 < pi.vote_count) :
    ∃ k, st.winning_proposal = some k ∧ k ≤ i ∧
      (∃ pk, st.proposals.get? k = some pk ∧ pk.vote_count = pi.vote_count) ∧
      ∀ l r, l < k → st.proposals.get? l = some r → r.vote_count < pi.vote_count := by
  have hub : maxCount st.proposals ≤ pi.vote_count := maxCount_le _ _ hmax
  have hlb : pi.vote_count ≤ maxCount st.proposals :=
    count_le_maxCount _ pi (List.get?_mem hi)
  have hm : maxCount st.proposals = pi.vote_count := le_antisymm hub hlb
  have h0 : 0 < maxCount st.proposals := by omega
  obtain ⟨k, pk, hk, hkc, hgo, hfirst⟩ := winningGo_found st.proposals 0 0 none h0
  refine ⟨k, ?_, ?_, ⟨pk, hk, by omega⟩, ?_⟩
  · show winningGo st.proposals 0 0 none = some k
    rw [hgo]
    simp
  · by_contra hik
    push_neg at hik
    have hlt := hfirst i pi hik hi
    omega
  · intro l r hl hr
    have := hfirst l r hl hr
    omega

/-- Witness for C4: counts [2, 1, 2] tie at indices 0 and 2; the winner
is the lower index 0. -/
theorem winning_tiebreak_lowest_C4_witness :
    (Ballot.mk 0 [] [⟨"A", 2⟩, ⟨"B", 1⟩, ⟨"C", 2⟩]).winning_proposal = some 0 := by
  obtain ⟨k, hw, hk, -, -⟩ :=
    winning_tiebreak_lowest_C4 (Ballot.mk 0 [] [⟨"A", 2⟩, ⟨"B", 1⟩, ⟨"C", 2⟩])
      0 2 ⟨"A", 2⟩ ⟨"C", 2⟩ (by decide) (by decide) (by decide) (by decide)
      (by decide) (by decide)
  have hk0 : k = 0 := Nat.le_zero.mp hk
  subst hk0
  exact hw

/-- C2: when `delegate` fails because the target is not registered
(`InvalidDelegate`), the abort-and-revert call semantics leave the
aggregate exactly as before the call; in particular the caller's
`voted` and `delegate` fields are unchanged (even though the aborted
execution had already written them before the target check). -/
theorem delegate_invalid_target_atomic_C2 (st : Ballot) (caller target : AccountId)
    (cv : Voter) (hne : target ≠ caller)
    (hc : lookupVoter st.voters caller = some cv) (hnv : cv.voted = false)
    (ht : lookupVoter st.voters target = none) :
    st.delegate caller target = .error .invalidDelegate ∧
    (Op.delegate caller target).apply st = st ∧
    lookupVoter ((Op.delegate caller target).apply st).voters caller = some cv := by
  have hv1 : lookupVoter (updateVoter st.voters caller fun v =>
      { v with voted := true, delegate := some target }) target = none := by
    rw [lookupVoter_updateVoter, if_neg hne, ht]
  have hres : st.delegate caller target = .error .invalidDelegate := by
    simp [Ballot.delegate, hne, hc, hnv, hv1]
  refine ⟨hres, ?_, ?_⟩ <;> simp [Op.apply, applyExcept, hres, hc]

/-- Witness for C2: in the fresh ballot, the chairperson delegates to
the unregistered id 1. -/
theorem delegate_invalid_target_atomic_C2_witness :
    (Ballot.new 0 none).delegate 0 1 = .error .invalidDelegate ∧
    (Op.delegate 0 1).apply (Ballot.new 0 none) = Ballot.new 0 none ∧
    lookupVoter ((Op.delegate 0 1).apply (Ballot.new 0 none)).voters 0 =
      some { weight := 1, voted := false, delegate := none, vote := none } :=
  delegate_invalid_target_atomic_C2 (Ballot.new 0 none) 0 1
    { weight := 1, voted := false, delegate := none, vote := none }
    (by decide) (by decide) (by decide) (by decide)

/-- C10: the `vote` index parameter is an `i32`; on the wasm32 target
`proposal_index as usize` reinterprets a negative index as a value of at
least 2^31.  A Rust `Vec` allocation never exceeds `isize::MAX` bytes,
so the proposal list is always shorter than 2^31 (hypothesis `hlen`) and
the cast of a negative index never addresses a proposal: the call fails
with `IndexOutOfBounds` and the state is unchanged.  The caller-side
hypotheses put the caller past the three earlier guards of `vote`. -/
theorem vote_negative_index_C10 (st : Ballot) (caller : AccountId) (cv : Voter)
    (i : Int) (hlo : -2147483648 ≤ i) (hhi : i < 0)
    (hlen : st.proposals.length < 2147483648)
    (hc : lookupVoter st.voters caller = some cv) (hnv : cv.voted = false)
    (hw : cv.weight = 1) :
    st.vote caller i = .error .indexOutOfBounds ∧
    (Op.vote caller i).apply st = st := by
  have hcast : 2147483648 ≤ i32ToUsize i := by
    rw [i32ToUsize]
    omega
  have hnone : st.proposals.get? (i32ToUsize i) = none := by
    rw [List.get?_eq_none]
    omega
  have hres : st.vote caller i = .error .indexOutOfBounds := by
    have hnone2 : st.proposals[i32ToUsize i]? = none := by
      rw [← List.get?_eq_getElem?]
      exact hnone
    simp [Ballot.vote, hc, hnv, hw, hnone2]
  exact ⟨hres, by simp [Op.apply, applyExcept, hres]⟩

/-- Witness for C10: `vote(-1)` by the chairperson on a two-proposal
ballot. -/
theorem vote_negative_index_C10_witness :
    (Ballot.new 0 (some ["A", "B"])).vote 0 (-1) = .error .indexOutOfBounds ∧
    (Op.vote 0 (-1)).apply (Ballot.new 0 (some ["A", "B"])) =
      Ballot.new 0 (some ["A", "B"]) :=
  vote_negative_index_C10 (Ballot.new 0 (some ["A", "B"])) 0
    { weight := 1, voted := false, delegate := none, vote := none }
    (-1) (by decide) (by decide) (by decide) (by decide) (by decide) (by decide)

/-- C3: on a successful `delegate(caller, target)` the caller's weight
`w` is the pre-call weight `cv.weight` (captured before any mutation —
the functional embedding reads it from the pre-state), the caller ends
with `voted = true` and `delegate = some target`; if the target has
already voted for stored index `stored`, `w` is added directly to that
proposal's count — a single hop, regardless of any delegation the
target itself made — and the target's record is untouched; otherwise
`w` is added to the target's weight and no proposal changes. -/
theorem delegate_settlement_C3 (st : Ballot) (caller target : AccountId)
    (cv tv : Voter) (stored : Int) (p : Proposal)
    (hne : target ≠ caller)
    (hc : lookupVoter st.voters caller = some cv) (hnv : cv.voted = false)
    (ht : lookupVoter st.voters target = some tv) :
    (tv.voted = true → tv.vote = some stored →
      st.proposals.get? (i32ToUsize stored) = some p →
      st.delegate caller target = .ok ((Op.delegate caller target).apply st) ∧
      lookupVoter ((Op.delegate caller target).apply st).voters caller =
        some { cv with voted := true, delegate := some target } ∧
      lookupVoter ((Op.delegate caller target).apply st).voters target = some tv ∧
      ((Op.delegate caller target).apply st).proposals.get? (i32ToUsize stored) =
        some { p with vote_count := wrap32 (p.vote_count + cv.weight) }) ∧
    (tv.voted = false →
      st.delegate caller target = .ok ((Op.delegate caller target).apply st) ∧
      lookupVoter ((Op.delegate caller target).apply st).voters caller =
        some { cv with voted := true, delegate := some target } ∧
      lookupVoter ((Op.delegate caller target).apply st).voters target =
        some { tv with weight := wrap32 (tv.weight + cv.weight) } ∧
      ((Op.delegate caller target).apply st).proposals = st.proposals) := by
  have hv1 : lookupVoter (updateVoter st.voters caller fun v =>
      { v with voted := true, delegate := some target }) target = some tv := by
    rw [lookupVoter_updateVoter, if_neg hne, ht]
  constructor
  · intro hdv hds hp
    have hlt : i32ToUsize stored < st.proposals.length := by
      rcases List.get?_eq_some.mp hp with ⟨hh, -⟩
      exact hh
    have hres : st.delegate caller target = .ok
        { st with
          voters := updateVoter st.voters caller fun v =>
            { v with voted := true, delegate := some target }
          proposals := updateProposal st.proposals (i32ToUsize stored) fun q =>
            { q with vote_count := wrap32 (q.vote_count + cv.weight) } } := by
      simp [Ballot.delegate, hne, hc, hnv, hv1, hdv, hds, hlt]
    have happ : (Op.delegate caller target).apply st =
        { st with
          voters := updateVoter st.voters caller fun v =>
            { v with voted := true, delegate := some target }
          proposals := updateProposal st.proposals (i32ToUsize stored) fun q =>
            { q with vote_count := wrap32 (q.vote_count + cv.weight) } } := by
      simp [Op.apply, applyExcept, hres]
    refine ⟨?_, ?_, ?_, ?_⟩
    · rw [hres, happ]
    · rw [happ]
      show lookupVoter (updateVoter st.voters caller _) caller = _
      rw [lookupVoter_updateVoter, if_pos rfl, hc]
      rfl
    · rw [happ]
      exact hv1
    · rw [happ]
      show (updateProposal st.proposals _ _).get? _ = _
      rw [get?_updateProposal, if_pos rfl, hp]
      rfl
  · intro hdv
    have hres : st.delegate caller target = .ok
        { st with
          voters := updateVoter (updateVoter st.voters caller fun v =>
              { v with voted := true, delegate := some target }) target fun v =>
            { v with weight := wrap32 (v.weight + cv.weight) } } := by
      simp [Ballot.delegate, hne, hc, hnv, hv1, hdv]
    have happ : (Op.delegate caller target).apply st =
        { st with
          voters := updateVoter (updateVoter st.voters caller fun v =>
              { v with voted := true, delegate := some target }) target fun v =>
            { v with weight := wrap32 (v.weight + cv.weight) } } := by
      simp [Op.apply, applyExcept, hres]
    refine ⟨?_, ?_, ?_, ?_⟩
    · rw [hres, happ]
    · rw [happ]
      show lookupVoter (updateVoter _ target _) caller = _
      rw [lookupVoter_updateVoter, if_neg (Ne.symm hne), lookupVoter_updateVoter,
        if_pos rfl, hc]
      rfl
    · rw [happ]
      show lookupVoter (updateVoter _ target _) target = _
      rw [lookupVoter_updateVoter, if_pos rfl, hv1]
      rfl
    · rw [happ]

/-- Witness for C3, both branches: voter 1 (weight 0) delegates to the
chairperson who already voted for proposal 0 (count 1 rises by weight
0); and the chairperson delegates to the unvoted voter 1 (weight rises
by 1). -/
theorem delegate_settlement_C3_witness :
    (stVotedChair.delegate 1 0 = .ok ((Op.delegate 1 0).apply stVotedChair) ∧
      lookupVoter ((Op.delegate 1 0).apply stVotedChair).voters 1 =
        some { weight := 0, voted := true, delegate := some 0, vote := none } ∧
      ((Op.delegate 1 0).apply stVotedChair).proposals.get? (i32ToUsize 0) =
        some { name := "A", vote_count := wrap32 (1 + 0) }) ∧
    (stTwoVoters.delegate 0 1 = .ok ((Op.delegate 0 1).apply stTwoVoters) ∧
      lookupVoter ((Op.delegate 0 1).apply stTwoVoters).voters 1 =
        some { weight := wrap32 (0 + 1), voted := false, delegate := none, vote := none } ∧
      ((Op.delegate 0 1).apply stTwoVoters).proposals = stTwoVoters.proposals) := by
  have hA := (delegate_settlement_C3 stVotedChair 1 0
    { weight := 0, voted := false, delegate := none, vote := none }
    { weight := 1, voted := true, delegate := none, vote := some 0 }
    0 { name := "A", vote_count := 1 }
    (by decide) (by decide) (by decide) (by decide)).1 (by decide) (by decide) (by decide)
  have hB := (delegate_settlement_C3 stTwoVoters 0 1
    { weight := 1, voted := false, delegate := none, vote := none }
    { weight := 0, voted := false, delegate := none, vote := none }
    0 { name := "", vote_count := 0 }
    (by decide) (by decide) (by decide) (by decide)).2 (by decide)
  exact ⟨⟨hA.1, hA.2.1, hA.2.2.2⟩, ⟨hB.1, hB.2.2.1, hB.2.2.2⟩⟩

/-- C9: in any state (in particular any reachable one) holding a voter
`target` with `voted = true` and `vote = none` — one that delegated
rather than voted — a `delegate(caller, target)` by any other eligible
registered caller passes every guard and reaches
`delegate.vote.unwrap()` on `None`: an unnamed panic (`unwrapNone`)
that is none of the eight named failure signals. -/
theorem delegate_unwrap_none_C9 (chair : AccountId) (names : Option (List String))
    (st : Ballot) (hr : Ballot.Reachable chair names st)
    (caller target : AccountId) (cv tv : Voter)
    (hne : caller ≠ target)
    (hc : lookupVoter st.voters caller = some cv) (hnv : cv.voted = false)
    (hw : 1 ≤ cv.weight)
    (ht : lookupVoter st.voters target = some tv)
    (htv : tv.voted = true) (hto : tv.vote = none) :
    st.delegate caller target = .error .unwrapNone ∧
    BallotError.unwrapNone ∉ namedSignals := by
  have hv1 : lookupVoter (updateVoter st.voters caller fun v =>
      { v with voted := true, delegate := some target }) target = some tv := by
    rw [lookupVoter_updateVoter, if_neg (Ne.symm hne), ht]
  constructor
  · simp [Ballot.delegate, Ne.symm hne, hc, hnv, hv1, htv, hto]
  · decide

/-- Witness for C9: the chairperson delegated to voter 2; the eligible
voter 1 then delegates to the chairperson and hits the panic. -/
theorem delegate_unwrap_none_C9_witness :
    Ballot.Reachable 0 none stChairDelegated ∧
    stChairDelegated.delegate 1 0 = .error .unwrapNone ∧
    BallotError.unwrapNone ∉ namedSignals := by
  have h1 : Ballot.Reachable 0 none
      ((Op.addVoter 1).apply (Ballot.new 0 none)) :=
    Relation.ReflTransGen.tail Relation.ReflTransGen.refl ⟨Op.addVoter 1, rfl⟩
  have h2 : Ballot.Reachable 0 none
      ((Op.giveRight 0 1).apply ((Op.addVoter 1).apply (Ballot.new 0 none))) :=
    Relation.ReflTransGen.tail h1 ⟨Op.giveRight 0 1, rfl⟩
  have h3 : Ballot.Reachable 0 none
      ((Op.addVoter 2).apply ((Op.giveRight 0 1).apply
        ((Op.addVoter 1).apply (Ballot.new 0 none)))) :=
    Relation.ReflTransGen.tail h2 ⟨Op.addVoter 2, rfl⟩
  have h4 : Ballot.Reachable 0 none stChairDelegated :=
    Relation.ReflTransGen.tail h3 ⟨Op.delegate 0 2, rfl⟩
  refine ⟨h4, ?_⟩
  exact delegate_unwrap_none_C9 0 none stChairDelegated h4 1 0
    { weight := 1, voted := false, delegate := none, vote := none }
    { weight := 1, voted := true, delegate := some 2, vote := none }
    (by decide) (by decide) (by decide) (by decide) (by decide) (by decide) (by decide)

/-- C6: in every state reachable from construction by register,
grant-right, delegate and vote calls, a voter with `voted = true` has
exactly one of `vote` / `delegate` set — never both, never neither. -/
theorem voted_exactly_one_C6 (chair : AccountId) (names : Option (List String))
    (st : Ballot) (hr : Ballot.Reachable chair names st)
    (id : AccountId) (v : Voter)
    (hl : lookupVoter st.voters id = some v) (hv : v.voted = true) :
    ((∃ i, v.vote = some i) ∧ v.delegate = none) ∨
    (v.vote = none ∧ ∃ a, v.delegate = some a) := by
  have hi := invB_reachable chair names st hr
  have hcons : v.consistentB = true := lookupVoter_all _ _ hi id v hl
  rw [Voter.consistentB, hv] at hcons
  cases hvo : v.vote <;> cases hd : v.delegate <;> simp_all

/-- Witness for C6: the chairperson's record after voting for proposal
0 in a reachable state. -/
theorem voted_exactly_one_C6_witness :
    ((∃ i, ({ weight := 1, voted := true, delegate := none, vote := some 0 } : Voter).vote
        = some i) ∧
      ({ weight := 1, voted := true, delegate := none, vote := some 0 } : Voter).delegate
        = none) ∨
    (({ weight := 1, voted := true, delegate := none, vote := some 0 } : Voter).vote
        = none ∧
      ∃ a, ({ weight := 1, voted := true, delegate := none, vote := some 0 } : Voter).delegate
        = some a) := by
  have h1 : Ballot.Reachable 0 (some ["A"]) stChairVoted :=
    Relation.ReflTransGen.tail Relation.ReflTransGen.refl ⟨Op.vote 0 0, rfl⟩
  exact voted_exactly_one_C6 0 (some ["A"]) stChairVoted h1 0
    { weight := 1, voted := true, delegate := none, vote := some 0 }
    (by decide) (by decide)

/-- C1: the guard of `vote` is `assert_eq!(sender.weight, 1)`, not
`weight > 0`, contradicting both the claim and the code's own doc
comment ("Give your vote (including votes delegated to you)") and the
increment `vote_count += sender.weight`.  The reachable state
`stWeightTwo` holds an enfranchised chairperson (`voted = false`,
weight 2 > 0) and a valid proposal index 0, yet `vote` fails with
`NoRight` ("You have no right to vote"). -/
theorem vote_weight_guard_bug_C1 :
    Ballot.Reachable 0 (some ["A"]) stWeightTwo ∧
    lookupVoter stWeightTwo.voters 0 =
      some { weight := 2, voted := false, delegate := none, vote := none } ∧
    stWeightTwo.proposals.get? 0 = some { name := "A", vote_count := 0 } ∧
    stWeightTwo.vote 0 0 = .error .noRight := by
  have h1 : Ballot.Reachable 0 (some ["A"])
      ((Op.addVoter 1).apply (Ballot.new 0 (some ["A"]))) :=
    Relation.ReflTransGen.tail Relation.ReflTransGen.refl ⟨Op.addVoter 1, rfl⟩
  have h2 : Ballot.Reachable 0 (some ["A"])
      ((Op.giveRight 0 1).apply ((Op.addVoter 1).apply (Ballot.new 0 (some ["A"])))) :=
    Relation.ReflTransGen.tail h1 ⟨Op.giveRight 0 1, rfl⟩
  have h3 : Ballot.Reachable 0 (some ["A"]) stWeightTwo :=
    Relation.ReflTransGen.tail h2 ⟨Op.delegate 1 0, rfl⟩
  exact ⟨h3, by decide, by decide, by decide⟩

/-- C8: `add_voter(id)` returns `true` on the first call for `id`,
inserting a fresh voter (weight 0, not voted) and leaving every other
entry unchanged; whenever `id` is already present the call returns
`false` and the state — the whole registry — is exactly unchanged; and
no operation ever removes a registered voter, so the no-op holds on
every subsequent call. -/
theorem add_voter_register_C8 (st : Ballot) (id : AccountId) :
    (lookupVoter st.voters id = none →
      (st.add_voter id).1 = true ∧
      lookupVoter (st.add_voter id).2.voters id =
        some { weight := 0, voted := false, delegate := none, vote := none } ∧
      ∀ j, j ≠ id → lookupVoter (st.add_voter id).2.voters j = lookupVoter st.voters j) ∧
    (∀ v, lookupVoter st.voters id = some v → st.add_voter id = (false, st)) ∧
    (∀ op : Op, (lookupVoter st.voters id).isSome = true →
      (lookupVoter (op.apply st).voters id).isSome = true) := by
  refine ⟨?_, ?_, ?_⟩
  · intro h
    refine ⟨?_, ?_, ?_⟩
    · simp [Ballot.add_voter, h]
    · simp [Ballot.add_voter, h, lookupVoter, freshVoter]
    · intro j hj
      simp [Ballot.add_voter, h, lookupVoter, Ne.symm hj]
  · intro v hv
    simp [Ballot.add_voter, hv]
  · intro op h
    exact lookupVoter_isSome_apply op st id h

/-- Witness for C8: first and second registration of voter 1, and
presence surviving a further call. -/
theorem add_voter_register_C8_witness :
    ((Ballot.new 0 none).add_voter 1).1 = true ∧
    lookupVoter stTwoVoters.voters 1 =
      some { weight := 0, voted := false, delegate := none, vote := none } ∧
    stTwoVoters.add_voter 1 = (false, stTwoVoters) ∧
    (lookupVoter ((Op.vote 9 0).apply stTwoVoters).voters 1).isSome = true := by
  have ha := (add_voter_register_C8 (Ballot.new 0 none) 1).1 (by decide)
  have hb := (add_voter_register_C8 stTwoVoters 1).2.1
    { weight := 0, voted := false, delegate := none, vote := none } (by decide)
  have hok := (add_voter_register_C8 stTwoVoters 1).2.2 (Op.vote 9 0) (by decide)
  exact ⟨ha.1, ha.2.1, hb, hok⟩

